import Mathlib

/-!
Shallow embedding of `src/expense_tracker.py` (Smart Expense Tracker).

The program keeps a JSON array of expense records in a file `expenses.json`
and offers add / view / monthly-summary / search / delete / export
operations over it.  We embed:

* the record type and the collection (a list of records);
* the backing file as an explicit `FileState` (absent, corrupt, or storing
  a well-formed collection), with `load_data` / `save_data` over it;
* the date parsers (`datetime.strptime` with the three accepted formats,
  and the CPython 3.11 `datetime.fromisoformat` — ISO date and date-time
  strings including basic formats and ISO week dates — used by the
  monthly summary), Python `int(...)` and `float(...)` on stripped text
  (the finite decimal-literal subset; amounts are modelled as rationals);
* the operations `add_expense`, `view_all`, `monthly_summary`, `delete`
  with their input-validation and persistence behaviour.

Every operation takes the `FileState` and returns the (possibly updated)
`FileState` together with an explicit result value standing for what the
Python function prints / raises.
-/

namespace ExpenseTracker

/-- One logged transaction, mirroring the dict built in `add_expense`
(`id`, `date`, `title`, `category`, `amount`, `note`).  Amounts
(Python floats) are modelled as rationals. -/
structure ExpenseRecord where
  id : Int
  date : String
  title : String
  category : String
  amount : ℚ
  note : String
deriving DecidableEq, Repr

/-- The full in-memory record set (the parsed JSON array). -/
abbrev Collection := List ExpenseRecord

/-- State of the backing file `expenses.json`: missing, present but not
parseable as JSON (`corrupt raw`), or storing a serialized collection. -/
inductive FileState where
  | absent
  | corrupt (raw : String)
  | stored (c : Collection)
deriving DecidableEq

/-- Embeds `load_data` (lines 16-23): return the parsed array when the file
exists and parses; on `JSONDecodeError` return `[]`; when the file does not
exist return `[]`.  Total: no error propagates. -/
def load_data : FileState → Collection
  | .absent => []
  | .corrupt _ => []
  | .stored c => c

/-- Embeds `save_data` (lines 25-27): serialize the collection and
overwrite the whole file. -/
def save_data (c : Collection) : FileState :=
  .stored c

/-- A calendar date as produced by `datetime.date`. -/
structure Date where
  year : Nat
  month : Nat
  day : Nat
deriving DecidableEq, Repr

/-- Gregorian leap-year rule used by `datetime.date`. -/
def isLeap (y : Nat) : Bool :=
  y % 4 = 0 && (y % 100 ≠ 0 || y % 400 = 0)

/-- Days in a month, as validated by the `datetime.date` constructor. -/
def daysInMonth (y m : Nat) : Nat :=
  if m = 2 then (if isLeap y then 29 else 28)
  else if m = 4 || m = 6 || m = 9 || m = 11 then 30
  else 31

/-- Validation performed by the `datetime.date` constructor: year 1-9999,
month 1-12, day within the month. -/
def mkDate? (y m d : Nat) : Option Date :=
  if 1 ≤ y ∧ y ≤ 9999 ∧ 1 ≤ m ∧ m ≤ 12 ∧ 1 ≤ d ∧ d ≤ daysInMonth y m then
    some ⟨y, m, d⟩
  else
    none

/-- Numeric value of a digit string (caller checks the characters). -/
def digitsVal (l : List Char) : Nat :=
  l.foldl (fun a c => 10 * a + (c.toNat - 48)) 0

/-- Split a character list on a separator character (used in place of
regex matching against the fixed separators of the accepted formats). -/
def splitSep (sep : Char) : List Char → List (List Char)
  | [] => [[]]
  | c :: rest =>
    let r := splitSep sep rest
    if c = sep then [] :: r
    else
      match r with
      | h :: t => (c :: h) :: t
      | [] => [[c]]

/-- A field matching `strptime`'s `%Y`: exactly four digits. -/
def isYearField (l : List Char) : Bool :=
  l.length = 4 && l.all Char.isDigit

/-- A field matching `strptime`'s `%m`/`%d`: one or two digits (value
bounds are checked afterwards by the `datetime.date` constructor via
`mkDate?`, together with the regex bounds 1-12 / 1-31 which `mkDate?`
subsumes). -/
def isTwoDigitField (l : List Char) : Bool :=
  (l.length = 1 || l.length = 2) && l.all Char.isDigit

/-- One `strptime` attempt with format year-month-day and the given
separator (covers `"%Y-%m-%d"` and `"%Y/%m/%d"`). -/
def strptimeYMD (sep : Char) (text : String) : Option Date :=
  match splitSep sep text.data with
  | [ys, ms, ds] =>
    if isYearField ys && isTwoDigitField ms && isTwoDigitField ds then
      mkDate? (digitsVal ys) (digitsVal ms) (digitsVal ds)
    else none
  | _ => none

/-- One `strptime` attempt with format `"%d-%m-%Y"`. -/
def strptimeDMY (text : String) : Option Date :=
  match splitSep '-' text.data with
  | [ds, ms, ys] =>
    if isYearField ys && isTwoDigitField ms && isTwoDigitField ds then
      mkDate? (digitsVal ys) (digitsVal ms) (digitsVal ds)
    else none
  | _ => none

/-- Embeds `parse_date` (lines 29-35): try `"%Y-%m-%d"`, `"%d-%m-%Y"`,
`"%Y/%m/%d"` in that order, first success wins; `none` stands for the
`ValueError` raised when none match. -/
def parse_date (text : String) : Option Date :=
  (strptimeYMD '-' text).orElse fun _ =>
    (strptimeDMY text).orElse fun _ =>
      strptimeYMD '/' text

/-- Embeds Python `int(s)` on stripped text: optional sign followed by a
nonempty digit run; `none` stands for the `ValueError`.  Digit-group
underscores and non-ASCII decimal digits are outside the modelled
subset. -/
def pyInt? (s : String) : Option Int :=
  match s.data with
  | '+' :: rest =>
    if rest ≠ [] ∧ rest.all Char.isDigit then some (digitsVal rest) else none
  | '-' :: rest =>
    if rest ≠ [] ∧ rest.all Char.isDigit then some (-(digitsVal rest : Int)) else none
  | l =>
    if l ≠ [] ∧ l.all Char.isDigit then some (digitsVal l) else none

/-- Digit prefix and remainder of a character list. -/
def spanDigits (l : List Char) : List Char × List Char :=
  (l.takeWhile Char.isDigit, l.dropWhile Char.isDigit)

/-- Exponent suffix of a float literal: optional sign then nonempty digits,
consuming the whole remainder. -/
def parseExp : List Char → Option Int
  | '+' :: r => if r ≠ [] ∧ r.all Char.isDigit then some (digitsVal r) else none
  | '-' :: r => if r ≠ [] ∧ r.all Char.isDigit then some (-(digitsVal r : Int)) else none
  | l => if l ≠ [] ∧ l.all Char.isDigit then some (digitsVal l) else none

/-- Value of mantissa digits `ip . fp` with exponent `e`, as a rational. -/
def floatVal (ip fp : List Char) (e : Int) : ℚ :=
  ((digitsVal ip : ℚ) + (digitsVal fp : ℚ) / (10 : ℚ) ^ fp.length) * (10 : ℚ) ^ e

/-- Mantissa-and-exponent part of a float literal (after the sign):
digits with an optional decimal point (at least one digit overall),
then an optional `e`/`E` exponent. -/
def pyFloatBody (l : List Char) : Option ℚ :=
  let (ip, l₁) := spanDigits l
  match l₁ with
  | '.' :: r =>
    let (fp, l₂) := spanDigits r
    if ip = [] ∧ fp = [] then none
    else
      match l₂ with
      | [] => some (floatVal ip fp 0)
      | 'e' :: rest => (parseExp rest).map (floatVal ip fp)
      | 'E' :: rest => (parseExp rest).map (floatVal ip fp)
      | _ => none
  | [] => if ip = [] then none else some (floatVal ip [] 0)
  | 'e' :: rest => if ip = [] then none else (parseExp rest).map (floatVal ip [])
  | 'E' :: rest => if ip = [] then none else (parseExp rest).map (floatVal ip [])
  | _ => none

/-- Embeds Python `float(s)` on stripped text, restricted to the finite
decimal-literal subset (optional sign, digits, optional decimal point,
optional exponent); `inf`/`nan` spellings are outside the rational model
and the claims.  `none` stands for the `ValueError`. -/
def pyFloat? (s : String) : Option ℚ :=
  match s.data with
  | '+' :: rest => pyFloatBody rest
  | '-' :: rest => (pyFloatBody rest).map Neg.neg
  | l => pyFloatBody l

/-- Decimal digit character. -/
def digitChar (n : Nat) : Char := Char.ofNat (48 + n)

/-- Two-digit zero-padded rendering (as in `str(date)`). -/
def pad2 (n : Nat) : List Char :=
  [digitChar (n / 10 % 10), digitChar (n % 10)]

/-- Four-digit zero-padded rendering (as in `str(date)`). -/
def pad4 (n : Nat) : List Char :=
  [digitChar (n / 1000 % 10), digitChar (n / 100 % 10),
   digitChar (n / 10 % 10), digitChar (n % 10)]

/-- Embeds `str(d)` for a `datetime.date`: the ISO form `YYYY-MM-DD`. -/
def isoString (d : Date) : String :=
  String.mk (pad4 d.year ++ '-' :: (pad2 d.month ++ '-' :: pad2 d.day))

/-- A valid ISO calendar-date string in the narrow sense: exactly
`YYYY-MM-DD` with a valid calendar date.  This is the date-only form and
is a strict subset of what `datetime.fromisoformat` accepts; it is used
to state the calendar-date notion the specification speaks of. -/
def isoCalendarDate? (s : String) : Option Date :=
  match s.data with
  | [y1, y2, y3, y4, '-', m1, m2, '-', d1, d2] =>
    if [y1, y2, y3, y4, m1, m2, d1, d2].all Char.isDigit then
      mkDate? (digitsVal [y1, y2, y3, y4]) (digitsVal [m1, m2]) (digitsVal [d1, d2])
    else none
  | _ => none

/-! ### `datetime.fromisoformat` (CPython 3.11 `_datetimemodule.c`)

The monthly summary parses stored dates with `datetime.fromisoformat`,
whose C accelerator accepts full ISO 8601 date and date-time strings:
`YYYY-MM-DD`, `YYYYMMDD`, ISO week dates `YYYY-Www[-D]` / `YYYYWww[D]`,
optionally followed by one separator character and a time
`HH[:?MM[:?SS]][{.,}ffffff]` with an optional `Z` or `±HH[:?MM[:?SS]]`
offset bounded strictly below 24 hours.  The C code scans the UTF-8
bytes of the string (the one free separator character is skipped as a
whole multi-byte sequence, and the terminating NUL participates in the
trailing-character checks), so the embedding below works on the UTF-8
byte sequence too. -/

/-- UTF-8 encoding of one character. -/
def utf8Bytes (c : Char) : List Nat :=
  let n := c.toNat
  if n < 128 then [n]
  else if n < 2048 then [192 + n / 64, 128 + n % 64]
  else if n < 65536 then [224 + n / 4096, 128 + n / 64 % 64, 128 + n % 64]
  else [240 + n / 262144, 128 + n / 4096 % 64, 128 + n / 64 % 64, 128 + n % 64]

/-- UTF-8 bytes of a string, as the C parser sees them. -/
def strBytes (s : String) : List Nat :=
  (s.data.map utf8Bytes).flatten

/-- ASCII digit test on a byte. -/
def isDigitB (b : Nat) : Bool :=
  48 ≤ b && b ≤ 57

/-- Byte at an index; past the end this is the terminating NUL (0), as
in the C string the parser walks. -/
def byteAt (l : List Nat) (i : Nat) : Nat :=
  (l.get? i).getD 0

/-- C `parse_digits`: exactly `n` ASCII digits starting at `pos`. -/
def readDigitsB (l : List Nat) (pos n : Nat) : Option Nat :=
  let s := (l.drop pos).take n
  if s.length = n ∧ s.all isDigitB then
    some (s.foldl (fun a b => 10 * a + (b - 48)) 0)
  else none

/-- Cumulative days before each month in a non-leap year
(`_DAYS_BEFORE_MONTH`). -/
def daysBeforeMonthTbl (m : Nat) : Nat :=
  [0, 0, 31, 59, 90, 120, 151, 181, 212, 243, 273, 304, 334].getD m 0

/-- Days of each month in a non-leap year (`_DAYS_IN_MONTH`). -/
def daysInMonthTbl (m : Nat) : Nat :=
  [0, 31, 28, 31, 30, 31, 30, 31, 31, 30, 31, 30, 31].getD m 0

/-- Days before January 1st of a year (`_days_before_year`). -/
def daysBeforeYear (y : Nat) : Nat :=
  (y - 1) * 365 + (y - 1) / 4 - (y - 1) / 100 + (y - 1) / 400

/-- Proleptic Gregorian ordinal of a date (`_ymd2ord`). -/
def ymd2ord (y m d : Nat) : Nat :=
  daysBeforeYear y + daysBeforeMonthTbl m
    + (if 2 < m ∧ isLeap y then 1 else 0) + d

/-- Inverse of `ymd2ord` (`_ord2ymd`): 146097 days per 400 years, 36524
per 100, 1461 per 4. -/
def ord2ymd (n0 : Nat) : Nat × Nat × Nat :=
  let n := n0 - 1
  let n400 := n / 146097
  let r400 := n % 146097
  let n100 := r400 / 36524
  let r100 := r400 % 36524
  let n4 := r100 / 1461
  let r4 := r100 % 1461
  let n1 := r4 / 365
  let nf := r4 % 365
  let year := n400 * 400 + 1 + n100 * 100 + n4 * 4 + n1
  if n1 = 4 ∨ n100 = 4 then (year - 1, 12, 31)
  else
    let leap := n1 = 3 ∧ (n4 ≠ 24 ∨ n100 = 3)
    let month := (nf + 50) / 32
    let preceding := daysBeforeMonthTbl month + (if 2 < month ∧ leap then 1 else 0)
    if nf < preceding then
      let month' := month - 1
      let preceding' :=
        preceding - (daysInMonthTbl month' + (if month' = 2 ∧ leap then 1 else 0))
      (year, month', nf - preceding' + 1)
    else (year, month, nf - preceding + 1)

/-- Ordinal of the Monday starting ISO week 1 (`_isoweek1monday`). -/
def isoweek1monday (y : Nat) : Nat :=
  let firstday := ymd2ord y 1 1
  let fwd := (firstday + 6) % 7
  (if fwd > 3 then firstday + 7 else firstday) - fwd

/-- ISO week date to Gregorian (`_isoweek_to_gregorian` plus the
`datetime` constructor's year range check on the result). -/
def isoweekToGregorian (year week day : Nat) : Option Date :=
  if ¬ (1 ≤ year ∧ year ≤ 9999) then none
  else if ¬ ((0 < week ∧ week < 53) ∨
      (week = 53 ∧ (ymd2ord year 1 1 % 7 = 4 ∨
        (ymd2ord year 1 1 % 7 = 3 ∧ isLeap year)))) then none
  else if ¬ (0 < day ∧ day < 8) then none
  else
    match ord2ymd (isoweek1monday year + (week - 1) * 7 + (day - 1)) with
    | (y, m, d) => if 1 ≤ y ∧ y ≤ 9999 then some ⟨y, m, d⟩ else none

/-- C `_find_isoformat_datetime_separator`: position of the single
date/time separator character, determined positionally from bytes 4, 5,
8 and 10 (`none` is the one raising branch, a 9-byte `YYYY-Www-`). -/
def findSep (l : List Nat) : Option Nat :=
  if l.length = 7 then some 7
  else if byteAt l 4 = 45 then
    if byteAt l 5 = 87 then
      if l.length > 8 ∧ byteAt l 8 = 45 then
        if l.length = 9 then none
        else if l.length > 10 ∧ isDigitB (byteAt l 10) then some 8
        else some 10
      else some 8
    else some 10
  else if byteAt l 4 = 87 then
    let idx := 7 + ((l.drop 7).takeWhile isDigitB).length
    if idx < 9 then some idx
    else if idx % 2 = 0 then some 7 else some 8
  else some 8

/-- C `parse_isoformat_date` on the first `dlen` bytes: `YYYY`, an
optional dash (fixing the separator style), then either `Www` with an
optional one-digit day or `MM`/`DD`, consuming exactly `dlen` bytes;
calendar validation as in the `date` constructor. -/
def parseIsoDate (l : List Nat) (dlen : Nat) : Option Date :=
  match readDigitsB l 0 4 with
  | none => none
  | some year =>
    let hasSep := byteAt l 4 = 45
    let pos := if hasSep then 5 else 4
    if byteAt l pos = 87 then
      match readDigitsB l (pos + 1) 2 with
      | none => none
      | some week =>
        let pos := pos + 3
        if dlen > pos then
          if ((byteAt l pos = 45) ≠ hasSep) then none
          else
            let pos := pos + (if hasSep then 1 else 0)
            match readDigitsB l pos 1 with
            | none => none
            | some day =>
              if pos + 1 = dlen then isoweekToGregorian year week day else none
        else isoweekToGregorian year week 1
    else
      match readDigitsB l pos 2 with
      | none => none
      | some month =>
        let pos := pos + 2
        if ((byteAt l pos = 45) ≠ hasSep) then none
        else
          let pos := pos + (if hasSep then 1 else 0)
          match readDigitsB l pos 2 with
          | none => none
          | some day =>
            if pos + 2 = dlen then mkDate? year month day else none

/-- Exit state of the component loop of C `parse_hh_mm_ss_ff`: either a
return from inside the loop (`rv` records whether the character consumed
past the segment end was a NUL), or a fall-through to the fraction
parser at a position. -/
inductive HmsfStep where
  | done (comps : List Nat) (rv : Bool)
  | frac (comps : List Nat) (fpos : Nat)

/-- The (at most three iteration) `HH[:?MM[:?SS]]` component loop of C
`parse_hh_mm_ss_ff`: two digits per component; the following character
is consumed and then examined — past the segment boundary the loop
returns (trailing-character flag set unless it read a NUL); a colon is
the separator when the first component fixed colon style; `.` or `,`
jumps to the fraction; in colon-free style the character is put back. -/
def hmsfLoop (t : List Nat) (pEnd : Nat) :
    Nat → Nat → Bool → List Nat → Option HmsfStep
  | 0, pos, _, acc => some (.frac acc pos)
  | rem + 1, pos, hasSep, acc =>
    match readDigitsB t pos 2 with
    | none => none
    | some v =>
      let acc := acc ++ [v]
      let cIdx := pos + 2
      let c := byteAt t cIdx
      let hasSep := if acc.length = 1 then c = 58 else hasSep
      if cIdx + 1 ≥ pEnd then some (.done acc (c ≠ 0))
      else if hasSep ∧ c = 58 then hmsfLoop t pEnd rem (cIdx + 1) hasSep acc
      else if c = 46 ∨ c = 44 then some (.frac acc (cIdx + 1))
      else if ¬ hasSep then hmsfLoop t pEnd rem cIdx hasSep acc
      else none

/-- C `parse_hh_mm_ss_ff` over bytes `[0, pEnd)` of `t`: the component
loop, then the fraction — up to six digits scaled to microseconds,
further digits skipped; the byte where skipping stops sets the
trailing-characters flag unless it is a NUL. -/
def hmsfC (t : List Nat) (pEnd : Nat) :
    Option (Nat × Nat × Nat × Nat × Bool) :=
  match hmsfLoop t pEnd 3 0 true [] with
  | none => none
  | some (.done comps rv) =>
    some (comps.getD 0 0, comps.getD 1 0, comps.getD 2 0, 0, rv)
  | some (.frac comps fpos) =>
    let toParse := min (pEnd - fpos) 6
    match readDigitsB t fpos toParse with
    | none => none
    | some f =>
      let us := if 0 < toParse then f * 10 ^ (6 - toParse) else 0
      let p := fpos + toParse + ((t.drop (fpos + toParse)).takeWhile isDigitB).length
      some (comps.getD 0 0, comps.getD 1 0, comps.getD 2 0, us, byteAt t p ≠ 0)

/-- C `parse_isoformat_time` plus the `datetime`/`timezone` constructor
checks: the time runs to the first `+`/`-`/`Z` byte; without an offset
the trailing flag is an error; `Z` must be followed by a NUL; a signed
offset reuses the component parser and the resulting offset must be
strictly below 24 hours in absolute value. -/
def parseIsoTime (t : List Nat) : Bool :=
  let tz := (t.takeWhile (fun b => b ≠ 43 ∧ b ≠ 45 ∧ b ≠ 90)).length
  match hmsfC t tz with
  | none => false
  | some (h, m, s, _, rv) =>
    if ¬ (h ≤ 23 ∧ m ≤ 59 ∧ s ≤ 59) then false
    else if tz = t.length then !rv
    else if byteAt t tz = 90 then byteAt t (tz + 1) = 0
    else
      match hmsfC (t.drop (tz + 1)) (t.drop (tz + 1)).length with
      | none => false
      | some (th, tm, ts, tus, trv) =>
        if trv then false
        else ((th * 3600 + tm * 60 + ts) * 1000000 + tus) < 86400000000

/-- Embeds `datetime.fromisoformat` (CPython 3.11 C accelerator): at
least 7 characters; the separator position is found from the bytes, the
date part is parsed from the bytes before it, and when bytes follow, the
separator character is skipped as one UTF-8 sequence and the remainder
must parse as an ISO time.  `none` stands for the `ValueError`; the
result is the date part of the parsed `datetime`. -/
def fromisoformat? (s : String) : Option Date :=
  if s.data.length < 7 then none
  else
    let l := strBytes s
    match findSep l with
    | none => none
    | some sep =>
      match parseIsoDate l sep with
      | none => none
      | some d =>
        if l.length ≤ sep then some d
        else
          let b := byteAt l sep
          let skip :=
            if b < 128 then 1
            else if 224 ≤ b ∧ b < 240 then 3
            else if 240 ≤ b then 4
            else 2
          if parseIsoTime (l.drop (sep + skip)) then some d else none

/-- Python string `<` (lexicographic on Unicode code points), as used by
`sorted(..., key=lambda x: x["date"], ...)`. -/
def pyStrLt : List Char → List Char → Bool
  | [], [] => false
  | [], _ :: _ => true
  | _ :: _, [] => false
  | a :: as, b :: bs =>
    if a.toNat < b.toNat then true
    else if b.toNat < a.toNat then false
    else pyStrLt as bs

/-- Python string `<=`, derived from `<` as a total order. -/
def pyStrLe (s t : String) : Bool :=
  !(pyStrLt t.data s.data)

/-- Insert a record into an already-sorted (descending by `date`) list,
placing it after every record whose date is `>=` its own: this is the
insertion step of a stable descending sort, matching
`sorted(data, key=lambda x: x["date"], reverse=True)`. -/
def insertRec (a : ExpenseRecord) : List ExpenseRecord → List ExpenseRecord
  | [] => [a]
  | x :: xs =>
    if pyStrLe x.date a.date then a :: x :: xs
    else x :: insertRec a xs

/-- Stable sort by `date` descending (string order), embedding
`sorted(data, key=lambda x: x["date"], reverse=True)` from `view_all`. -/
def sortByDateDesc : List ExpenseRecord → List ExpenseRecord
  | [] => []
  | a :: l => insertRec a (sortByDateDesc l)

/-- Sum of the `amount` fields (the running `total` of `view_all` and the
`total = sum(...)` of `monthly_summary`). -/
def totalAmount (c : Collection) : ℚ :=
  (c.map (·.amount)).sum

/-- Result of `view_all`: the empty-collection message, or the printed
rows (already sorted) together with the reported total. -/
inductive ViewResult where
  | empty
  | listing (rows : List ExpenseRecord) (total : ℚ)
deriving DecidableEq

/-- Embeds `view_all` (lines 64-74): load, report "No expenses yet." when
empty, otherwise print the records sorted by date descending and report
the accumulated total.  Never writes the store. -/
def view_all (f : FileState) : ViewResult × FileState :=
  if (load_data f).isEmpty then (.empty, f)
  else
    (.listing (sortByDateDesc (load_data f))
      (totalAmount (sortByDateDesc (load_data f))), f)

/-- Result of `add_expense`: the `ValueError` branches (printed as
"Invalid input") distinguished by which parse failed, or success with the
constructed record. -/
inductive AddResult where
  | invalidDate
  | invalidAmount
  | ok (r : ExpenseRecord)
deriving DecidableEq

/-- Embeds `add_expense` (lines 38-62).  `today` is `datetime.today().date()`
and `nowMs` is `int(datetime.now().timestamp()*1000)`; the five strings are
the stripped user inputs.  A blank date defaults to `today`, a blank
category to `"Other"`; on a date or amount `ValueError` nothing is loaded
or saved; on success the record is appended and the collection saved. -/
def add_expense (today : Date) (nowMs : Int)
    (dateText title category amountText note : String)
    (f : FileState) : AddResult × FileState :=
  match (if dateText = "" then some today else parse_date dateText) with
  | none => (.invalidDate, f)
  | some d =>
    match pyFloat? amountText with
    | none => (.invalidAmount, f)
    | some amount =>
      let record : ExpenseRecord :=
        { id := nowMs
          date := isoString d
          title := title
          category := if category = "" then "Other" else category
          amount := amount
          note := note }
      let data := load_data f
      (.ok record, save_data (data ++ [record]))

/-- Result of `delete`: the "ID not found." message, or success. -/
inductive DeleteResult where
  | notFound
  | deleted
deriving DecidableEq

/-- Embeds `delete` (lines 112-125) after the integer id has been read:
filter out every record with the given id; if nothing was removed report
"ID not found." without saving, otherwise save the filtered collection. -/
def delete (idNum : Int) (f : FileState) : DeleteResult × FileState :=
  let data := load_data f
  let new_data := data.filter (fun r => r.id ≠ idNum)
  if new_data.length = data.length then (.notFound, f)
  else (.deleted, save_data new_data)

/-- Uncaught Python exceptions that `monthly_summary` can raise: a
`ValueError` from `int(...)` on the year/month text, a `ValueError` from
`datetime.fromisoformat` on a stored date, or the `ZeroDivisionError`
from the percentage computation. -/
inductive PyError where
  | intParse
  | isoParse
  | zeroDiv
deriving DecidableEq

/-- The printed summary: the header year and month, each category line
`(category, subtotal, percent)` in dict insertion order, and the total. -/
structure SummaryOut where
  year : Int
  month : Int
  total : ℚ
  lines : List (String × ℚ × ℚ)
deriving DecidableEq

/-- Result of `monthly_summary`: an uncaught exception, the
"No records." message, or the printed summary. -/
inductive SummaryResult where
  | error (e : PyError)
  | noRecords
  | ok (s : SummaryOut)
deriving DecidableEq

/-- The filter predicate of the comprehension in line 85: the record's
date, parsed with `fromisoformat`, falls in the given year and month. -/
def inMonth (year month : Int) (r : ExpenseRecord) : Bool :=
  match fromisoformat? r.date with
  | some d => (d.year : Int) = year && (d.month : Int) = month
  | none => false

/-- Records of the collection falling in the given year and month. -/
def monthFilter (year month : Int) (data : Collection) : Collection :=
  data.filter (inMonth year month)

/-- One step of the `by_cat` accumulation (line 94,
`by_cat[r["category"]] = by_cat.get(r["category"], 0) + r["amount"]`):
add to the existing entry in place, or append a new one — Python dicts
preserve insertion order. -/
def upsert (cat : String) (amt : ℚ) : List (String × ℚ) → List (String × ℚ)
  | [] => [(cat, amt)]
  | (c, s) :: rest =>
    if c = cat then (c, s + amt) :: rest
    else (c, s) :: upsert cat amt rest

/-- The `by_cat` dict built by the loop in lines 92-94, as an ordered
association list. -/
def by_cat_fold (fs : Collection) : List (String × ℚ) :=
  fs.foldl (fun acc r => upsert r.category r.amount acc) []

/-- Embeds lines 84-99 of `monthly_summary`, after year and month are
known: load-free core over the collection.  The comprehension calls
`fromisoformat` on every record's date, so any invalid date raises; an
empty filtered set prints "No records."; a zero total raises
`ZeroDivisionError` at the first percentage; otherwise the summary is
printed with `amt/total*100` per category. -/
def monthly_core (year month : Int) (data : Collection) : SummaryResult :=
  if data.any (fun r => (fromisoformat? r.date).isNone) then .error .isoParse
  else if (monthFilter year month data).isEmpty then .noRecords
  else if totalAmount (monthFilter year month data) = 0 then .error .zeroDiv
  else
    .ok { year := year
          month := month
          total := totalAmount (monthFilter year month data)
          lines := (by_cat_fold (monthFilter year month data)).map
            (fun p => (p.1, p.2, p.2 / totalAmount (monthFilter year month data) * 100)) }

/-- Embeds `monthly_summary` (lines 76-99): the year and month texts go
through `int(...)` first (blank defaults to today's year/month), with no
`try` around them, so a bad integer raises before the store is read;
then the core summary runs on the loaded collection.  Never writes. -/
def monthly_summary (yText mText : String) (today : Date)
    (f : FileState) : SummaryResult × FileState :=
  match (if yText = "" then some (today.year : Int) else pyInt? yText) with
  | none => (.error .intParse, f)
  | some year =>
    match (if mText = "" then some (today.month : Int) else pyInt? mText) with
    | none => (.error .intParse, f)
    | some month => (monthly_core year month (load_data f), f)

/-- Categories in first-seen order (specification-side rendering of dict
insertion order). -/
def firstSeenAux (seen : List String) : List String → List String
  | [] => []
  | c :: r =>
    if c ∈ seen then firstSeenAux seen r
    else c :: firstSeenAux (c :: seen) r

/-- First occurrence of each element, in order of first appearance. -/
def firstSeen (l : List String) : List String :=
  firstSeenAux [] l

/-- Sum of the amounts of the records with the given category. -/
def sumCat (fs : Collection) (cat : String) : ℚ :=
  totalAmount (fs.filter (fun r => r.category = cat))

/-- Specification-side grouping: category → sum of amount, in first-seen
category order.  `by_cat_fold` is proved equal to it below. -/
def specByCat (fs : Collection) : List (String × ℚ) :=
  (firstSeen (fs.map (·.category))).map (fun cat => (cat, sumCat fs cat))

/-- Lookup in an ordered association list (proof-side helper). -/
def alLookup (k : String) : List (String × ℚ) → Option ℚ
  | [] => none
  | (c, v) :: t => if c = k then some v else alLookup k t

/-! ### Example records from the specification -/

/-- Example record 1 of the spec (id 1, 2024-01-05, Food, 10.0). -/
def exRec1 : ExpenseRecord := ⟨1, "2024-01-05", "", "Food", 10, ""⟩

/-- Example record 2 of the spec (id 2, 2024-01-20, Food, 20.0). -/
def exRec2 : ExpenseRecord := ⟨2, "2024-01-20", "", "Food", 20, ""⟩

/-- Example record 3 of the spec (id 3, 2024-02-01, Transport, 5.0). -/
def exRec3 : ExpenseRecord := ⟨3, "2024-02-01", "", "Transport", 5, ""⟩

/-- The three-record example collection of the spec. -/
def exRecords : Collection := [exRec1, exRec2, exRec3]

/-! ### Order lemmas for the Python string comparison -/

theorem pyStrLt_irrefl : ∀ l : List Char, pyStrLt l l = false := by
  intro l
  induction l with
  | nil => rfl
  | cons a as ih => simp [pyStrLt, ih]

theorem pyStrLt_asymm : ∀ a b : List Char, pyStrLt a b = true → pyStrLt b a = false := by
  intro a
  induction a with
  | nil =>
    intro b _
    cases b with
    | nil => rfl
    | cons x xs => rfl
  | cons x xs ih =>
    intro b h
    cases b with
    | nil => simp [pyStrLt] at h
    | cons y ys =>
      simp only [pyStrLt] at h ⊢
      by_cases h1 : x.toNat < y.toNat
      · have h2 : ¬ y.toNat < x.toNat := by omega
        simp [h1, h2]
      · by_cases h2 : y.toNat < x.toNat
        · simp [h1, h2] at h
        · simp only [h1, h2, if_false] at h ⊢
          exact ih ys h

theorem pyStrLt_lt_of_lt_of_nlt :
    ∀ c a b : List Char, pyStrLt c a = true → pyStrLt b a = false → pyStrLt c b = true := by
  intro c
  induction c with
  | nil =>
    intro a b hca hba
    cases a with
    | nil => simp [pyStrLt] at hca
    | cons y ys =>
      cases b with
      | nil => simp [pyStrLt] at hba
      | cons z zs => rfl
  | cons x xs ih =>
    intro a b hca hba
    cases a with
    | nil => simp [pyStrLt] at hca
    | cons y ys =>
      cases b with
      | nil => simp [pyStrLt] at hba
      | cons z zs =>
        simp only [pyStrLt] at hca hba ⊢
        by_cases hzy : z.toNat < y.toNat
        · simp [hzy] at hba
        · by_cases hxy : x.toNat < y.toNat
          · have hxz : x.toNat < z.toNat := by omega
            simp [hxz]
          · by_cases hyx : y.toNat < x.toNat
            · simp [hxy, hyx] at hca
            · by_cases hyz : y.toNat < z.toNat
              · have hxz : x.toNat < z.toNat := by omega
                simp [hxz]
              · have hxz : ¬ x.toNat < z.toNat := by omega
                have hzx : ¬ z.toNat < x.toNat := by omega
                simp only [hxy, hyx, if_false] at hca
                simp only [hzy, hyz, if_false] at hba
                simp only [hxz, hzx, if_false]
                exact ih ys zs hca hba

theorem pyStrLe_total : ∀ s t : String, pyStrLe s t = true ∨ pyStrLe t s = true := by
  intro s t
  by_cases h : pyStrLt t.data s.data = true
  · right
    simp only [pyStrLe, Bool.not_eq_true']
    exact pyStrLt_asymm _ _ h
  · left
    simp only [pyStrLe, Bool.not_eq_true']
    exact Bool.not_eq_true _ ▸ h

theorem pyStrLe_trans {a b c : String} :
    pyStrLe a b = true → pyStrLe b c = true → pyStrLe a c = true := by
  simp only [pyStrLe, Bool.not_eq_true']
  intro hab hbc
  by_contra h
  have hca : pyStrLt c.data a.data = true := by
    cases hv : pyStrLt c.data a.data with
    | true => rfl
    | false => exact absurd hv h
  exact absurd (pyStrLt_lt_of_lt_of_nlt _ _ _ hca hab) (by simp [hbc])

/-! ### Lemmas about the stable descending insertion sort of `view_all` -/

theorem insertRec_perm (a : ExpenseRecord) (l : List ExpenseRecord) :
    List.Perm (insertRec a l) (a :: l) := by
  induction l with
  | nil => exact List.Perm.refl _
  | cons x xs ih =>
    simp only [insertRec]
    by_cases h : pyStrLe x.date a.date = true
    · rw [if_pos h]
    · rw [if_neg h]
      exact (ih.cons x).trans (List.Perm.swap a x xs)

theorem sortByDateDesc_perm (c : List ExpenseRecord) :
    List.Perm (sortByDateDesc c) c := by
  induction c with
  | nil => exact List.Perm.refl _
  | cons a l ih =>
    simp only [sortByDateDesc]
    exact (insertRec_perm a (sortByDateDesc l)).trans (ih.cons a)

theorem mem_insertRec {a x : ExpenseRecord} {l : List ExpenseRecord} :
    x ∈ insertRec a l ↔ x = a ∨ x ∈ l := by
  rw [(insertRec_perm a l).mem_iff, List.mem_cons]

theorem insertRec_pairwise {a : ExpenseRecord} {l : List ExpenseRecord}
    (hl : l.Pairwise (fun p q => pyStrLe q.date p.date = true)) :
    (insertRec a l).Pairwise (fun p q => pyStrLe q.date p.date = true) := by
  induction l with
  | nil => simp [insertRec]
  | cons x xs ih =>
    rcases List.pairwise_cons.mp hl with ⟨hx, hxs⟩
    simp only [insertRec]
    by_cases h : pyStrLe x.date a.date = true
    · rw [if_pos h]
      refine List.pairwise_cons.mpr ⟨?_, hl⟩
      intro q hq
      rcases List.mem_cons.mp hq with rfl | hq
      · exact h
      · exact pyStrLe_trans (hx q hq) h
    · rw [if_neg h]
      refine List.pairwise_cons.mpr ⟨?_, ih hxs⟩
      intro q hq
      rcases mem_insertRec.mp hq with rfl | hq
      · rcases pyStrLe_total x.date q.date with ht | ht
        · exact absurd ht h
        · exact ht
      · exact hx q hq

theorem sortByDateDesc_pairwise (c : List ExpenseRecord) :
    (sortByDateDesc c).Pairwise (fun p q => pyStrLe q.date p.date = true) := by
  induction c with
  | nil => simp [sortByDateDesc]
  | cons a l ih => exact insertRec_pairwise ih

theorem filter_insertRec (a : ExpenseRecord) (l : List ExpenseRecord) (d : String) :
    (insertRec a l).filter (fun r => r.date = d)
      = (a :: l).filter (fun r => r.date = d) := by
  induction l with
  | nil => rfl
  | cons x xs ih =>
    simp only [insertRec]
    by_cases h : pyStrLe x.date a.date = true
    · rw [if_pos h]
    · rw [if_neg h]
      have hlt : pyStrLt a.date.data x.date.data = true := by
        simpa [pyStrLe] using h
      by_cases hx : x.date = d
      · have ha : ¬ a.date = d := by
          intro ha
          rw [ha, hx] at hlt
          exact absurd hlt (by simp [pyStrLt_irrefl])
        simp [List.filter_cons, hx, ha, ih]
      · by_cases ha : a.date = d
        · simp [List.filter_cons, hx, ha, ih]
        · simp [List.filter_cons, hx, ha, ih]

theorem sortByDateDesc_stable (c : List ExpenseRecord) (d : String) :
    (sortByDateDesc c).filter (fun r => r.date = d)
      = c.filter (fun r => r.date = d) := by
  induction c with
  | nil => rfl
  | cons a l ih =>
    simp only [sortByDateDesc]
    rw [filter_insertRec]
    simp only [List.filter_cons, ih]

theorem sortByDateDesc_total (c : List ExpenseRecord) :
    totalAmount (sortByDateDesc c) = totalAmount c := by
  unfold totalAmount
  exact ((sortByDateDesc_perm c).map (·.amount)).sum_eq

/-! ### Lemmas about the `by_cat` grouping of `monthly_summary` -/

theorem sumCat_nil (k : String) : sumCat [] k = 0 := rfl

theorem sumCat_cons (r : ExpenseRecord) (fs : Collection) (k : String) :
    sumCat (r :: fs) k
      = (if r.category = k then r.amount else 0) + sumCat fs k := by
  unfold sumCat totalAmount
  by_cases h : r.category = k
  · simp [List.filter_cons, h]
  · simp [List.filter_cons, h]

theorem alLookup_upsert (c : String) (a : ℚ) (acc : List (String × ℚ)) (k : String) :
    alLookup k (upsert c a acc)
      = if k = c then
          (match alLookup c acc with
           | some v => some (v + a)
           | none => some a)
        else alLookup k acc := by
  induction acc with
  | nil =>
    by_cases h : k = c
    · subst h; simp [upsert, alLookup]
    · simp [upsert, alLookup, h, Ne.symm h]
  | cons p t ih =>
    obtain ⟨c', v'⟩ := p
    by_cases hc : c' = c
    · subst hc
      by_cases hk : k = c'
      · subst hk; simp [upsert, alLookup]
      · simp [upsert, alLookup, hk, Ne.symm hk]
    · by_cases hck : c' = k
      · subst hck
        have hkc : ¬ c' = c := hc
        simp [upsert, alLookup, hc, hkc]
      · simp only [upsert, if_neg hc, alLookup, if_neg hck]
        rw [ih]

theorem upsert_of_not_mem {c : String} (a : ℚ) {acc : List (String × ℚ)}
    (h : c ∉ acc.map Prod.fst) : upsert c a acc = acc ++ [(c, a)] := by
  induction acc with
  | nil => rfl
  | cons p t ih =>
    obtain ⟨c', v'⟩ := p
    simp only [List.map_cons, List.mem_cons] at h
    push_neg at h
    obtain ⟨h1, h2⟩ := h
    simp only [upsert, if_neg (Ne.symm h1), List.cons_append, List.cons.injEq, true_and]
    exact ih h2

theorem keys_upsert_of_mem {c : String} (a : ℚ) {acc : List (String × ℚ)}
    (h : c ∈ acc.map Prod.fst) :
    (upsert c a acc).map Prod.fst = acc.map Prod.fst := by
  induction acc with
  | nil => simp at h
  | cons p t ih =>
    obtain ⟨c', v'⟩ := p
    by_cases hc : c' = c
    · subst hc; simp [upsert]
    · simp only [List.map_cons, List.mem_cons] at h
      rcases h with h | h
      · exact absurd h.symm hc
      · simp [upsert, hc, ih h]

theorem firstSeenAux_congr :
    ∀ (l s₁ s₂ : List String), (∀ x, x ∈ s₁ ↔ x ∈ s₂) →
      firstSeenAux s₁ l = firstSeenAux s₂ l := by
  intro l
  induction l with
  | nil => intro s₁ s₂ _; rfl
  | cons c r ih =>
    intro s₁ s₂ hiff
    by_cases h : c ∈ s₁
    · rw [firstSeenAux, firstSeenAux, if_pos h, if_pos ((hiff c).mp h), ih s₁ s₂ hiff]
    · rw [firstSeenAux, firstSeenAux, if_neg h, if_neg (fun hh => h ((hiff c).mpr hh))]
      refine congrArg (c :: ·) (ih (c :: s₁) (c :: s₂) ?_)
      intro x
      simp [hiff x]

theorem not_mem_seen_of_mem_firstSeenAux :
    ∀ (l seen : List String) (x : String), x ∈ firstSeenAux seen l → x ∉ seen := by
  intro l
  induction l with
  | nil => intro seen x h; simp [firstSeenAux] at h
  | cons c r ih =>
    intro seen x h
    by_cases hc : c ∈ seen
    · rw [firstSeenAux, if_pos hc] at h
      exact ih seen x h
    · rw [firstSeenAux, if_neg hc] at h
      rcases List.mem_cons.mp h with rfl | h
      · exact hc
      · have := ih (c :: seen) x h
        intro hx
        exact this (List.mem_cons_of_mem c hx)

theorem firstSeenAux_nodup :
    ∀ (l seen : List String), (firstSeenAux seen l).Nodup := by
  intro l
  induction l with
  | nil => intro seen; simp [firstSeenAux]
  | cons c r ih =>
    intro seen
    by_cases hc : c ∈ seen
    · rw [firstSeenAux, if_pos hc]; exact ih seen
    · rw [firstSeenAux, if_neg hc]
      refine List.nodup_cons.mpr ⟨?_, ih (c :: seen)⟩
      intro h
      exact not_mem_seen_of_mem_firstSeenAux r (c :: seen) c h (List.mem_cons_self c seen)

theorem mem_firstSeenAux :
    ∀ (l seen : List String) (x : String),
      x ∈ firstSeenAux seen l ↔ (x ∈ l ∧ x ∉ seen) := by
  intro l
  induction l with
  | nil => intro seen x; simp [firstSeenAux]
  | cons c r ih =>
    intro seen x
    by_cases hc : c ∈ seen
    · rw [firstSeenAux, if_pos hc, ih]
      constructor
      · intro ⟨h1, h2⟩; exact ⟨List.mem_cons_of_mem c h1, h2⟩
      · intro ⟨h1, h2⟩
        rcases List.mem_cons.mp h1 with rfl | h1
        · exact absurd hc h2
        · exact ⟨h1, h2⟩
    · rw [firstSeenAux, if_neg hc]
      constructor
      · intro h
        rcases List.mem_cons.mp h with rfl | h
        · exact ⟨List.mem_cons_self x r, hc⟩
        · obtain ⟨h1, h2⟩ := (ih (c :: seen) x).mp h
          exact ⟨List.mem_cons_of_mem c h1, fun hh => h2 (List.mem_cons_of_mem c hh)⟩
      · rintro ⟨h1, h2⟩
        rcases List.mem_cons.mp h1 with rfl | h1
        · exact List.mem_cons_self x _
        · by_cases hx : x = c
          · subst hx; exact List.mem_cons_self x _
          · refine List.mem_cons_of_mem c ((ih (c :: seen) x).mpr ⟨h1, ?_⟩)
            intro hh
            rcases List.mem_cons.mp hh with h' | h'
            · exact hx h'
            · exact h2 h'

theorem alLookup_map_key :
    ∀ (ks : List String) (f : String → ℚ) (k : String),
      alLookup k (ks.map (fun c => (c, f c)))
        = if k ∈ ks then some (f k) else none := by
  intro ks
  induction ks with
  | nil => intro f k; simp [alLookup]
  | cons c t ih =>
    intro f k
    by_cases h : c = k
    · subst h; simp [alLookup]
    · rw [List.map_cons, alLookup, if_neg h, ih]
      simp [List.mem_cons, Ne.symm h]

theorem alLookup_eq_none {k : String} :
    ∀ {l : List (String × ℚ)}, k ∉ l.map Prod.fst → alLookup k l = none := by
  intro l
  induction l with
  | nil => intro _; rfl
  | cons p t ih =>
    obtain ⟨c, v⟩ := p
    intro h
    simp only [List.map_cons, List.mem_cons] at h
    push_neg at h
    rw [alLookup, if_neg (fun hh => h.1 hh.symm)]
    exact ih h.2

theorem alist_ext :
    ∀ (l₁ l₂ : List (String × ℚ)),
      l₁.map Prod.fst = l₂.map Prod.fst → (l₁.map Prod.fst).Nodup →
      (∀ k, alLookup k l₁ = alLookup k l₂) → l₁ = l₂ := by
  intro l₁
  induction l₁ with
  | nil =>
    intro l₂ hkeys _ _
    cases l₂ with
    | nil => rfl
    | cons p t => simp at hkeys
  | cons p t₁ ih =>
    intro l₂ hkeys hnodup hlook
    obtain ⟨k, v⟩ := p
    cases l₂ with
    | nil => simp at hkeys
    | cons q t₂ =>
      obtain ⟨k₂, v₂⟩ := q
      simp only [List.map_cons, List.cons.injEq] at hkeys
      obtain ⟨rfl, hkeys⟩ := hkeys
      have hv : v = v₂ := by
        have := hlook k
        simpa [alLookup] using this
      subst hv
      rcases List.nodup_cons.mp hnodup with ⟨hknot, hnodup'⟩
      refine congrArg _ (ih t₂ hkeys hnodup' ?_)
      intro k'
      by_cases hk : k' = k
      · subst hk
        rw [alLookup_eq_none hknot, alLookup_eq_none (hkeys ▸ hknot)]
      · have h' := hlook k'
        rw [alLookup, alLookup, if_neg (Ne.symm hk), if_neg (Ne.symm hk)] at h'
        exact h'

theorem alLookup_foldl_upsert :
    ∀ (fs : Collection) (acc : List (String × ℚ)) (k : String),
      alLookup k (fs.foldl (fun acc r => upsert r.category r.amount acc) acc)
        = match alLookup k acc with
          | some v => some (v + sumCat fs k)
          | none => if k ∈ fs.map (·.category) then some (sumCat fs k) else none := by
  intro fs
  induction fs with
  | nil =>
    intro acc k
    cases h : alLookup k acc with
    | none => simp [h]
    | some v => simp [h, sumCat_nil]
  | cons r rest ih =>
    intro acc k
    rw [List.foldl_cons, ih, alLookup_upsert]
    by_cases hk : k = r.category
    · rw [if_pos hk, hk]
      cases h : alLookup r.category acc with
      | none => simp [h, sumCat_cons]
      | some v => simp [h, sumCat_cons, add_assoc]
    · rw [if_neg hk]
      have hs : sumCat (r :: rest) k = sumCat rest k := by
        rw [sumCat_cons, if_neg (Ne.symm hk), zero_add]
      cases h : alLookup k acc with
      | none => simp [h, hs, hk]
      | some v => simp [h, hs]

theorem keys_foldl_upsert :
    ∀ (fs : Collection) (acc : List (String × ℚ)),
      (fs.foldl (fun acc r => upsert r.category r.amount acc) acc).map Prod.fst
        = acc.map Prod.fst
          ++ firstSeenAux (acc.map Prod.fst) (fs.map (·.category)) := by
  intro fs
  induction fs with
  | nil => intro acc; simp [firstSeenAux]
  | cons r rest ih =>
    intro acc
    rw [List.foldl_cons, ih]
    by_cases h : r.category ∈ acc.map Prod.fst
    · rw [keys_upsert_of_mem r.amount h, List.map_cons, firstSeenAux, if_pos h]
    · rw [upsert_of_not_mem r.amount h, List.map_cons, firstSeenAux, if_neg h]
      simp only [List.map_append, List.map_cons, List.map_nil]
      rw [List.append_assoc]
      refine congrArg _ ?_
      simp only [List.singleton_append]
      refine congrArg (r.category :: ·) ?_
      refine firstSeenAux_congr _ _ _ ?_
      intro x
      simp [List.mem_append, List.mem_cons, or_comm]

theorem by_cat_fold_eq_specByCat (fs : Collection) :
    by_cat_fold fs = specByCat fs := by
  have hkeys1 : (by_cat_fold fs).map Prod.fst = firstSeen (fs.map (·.category)) := by
    rw [by_cat_fold, keys_foldl_upsert]
    simp [firstSeen]
  have hkeys2 : (specByCat fs).map Prod.fst = firstSeen (fs.map (·.category)) := by
    rw [specByCat, List.map_map]
    simp [Function.comp_def]
  refine alist_ext _ _ (hkeys1.trans hkeys2.symm) ?_ ?_
  · rw [hkeys1]
    exact firstSeenAux_nodup _ _
  · intro k
    rw [by_cat_fold, alLookup_foldl_upsert, specByCat, alLookup_map_key]
    simp only [alLookup]
    rw [firstSeen]
    by_cases h : k ∈ fs.map (·.category)
    · rw [if_pos h, if_pos ((mem_firstSeenAux _ _ _).mpr ⟨h, by simp⟩)]
    · rw [if_neg h, if_neg (fun hh => h ((mem_firstSeenAux _ _ _).mp hh).1)]

/-! ### Claim theorems -/

/-- C5: for every state of the backing file — absent, or present but
malformed — `load_data` returns the empty collection and never fails
(it is a total function into `Collection`); when the file is present and
parses as the record array, `load_data` returns that array. -/
theorem load_data_recovers :
    load_data .absent = []
    ∧ (∀ raw, load_data (.corrupt raw) = [])
    ∧ (∀ c : Collection, load_data (.stored c) = c) :=
  ⟨rfl, fun _ => rfl, fun _ => rfl⟩

/-- C6: saving a collection and then loading yields the same collection
field-for-field: the save/load round-trip is the identity. -/
theorem save_then_load_roundtrip (c : Collection) :
    load_data (save_data c) = c := rfl

/-- C1: `add_expense` with a date text that parses (or is blank,
defaulting to today), any title, a category (blank defaulting to
"Other"), a numeric amount text and any note appends exactly one new
record — the size strictly increases by one — whose date (in its ISO
rendering), title, category, amount and note are the supplied or
defaulted inputs, whose id is the current-time-in-milliseconds value,
and persists the full resulting collection. -/
theorem add_expense_appends_one (today : Date) (nowMs : Int)
    (dateText title category amountText note : String) (c : Collection)
    (d : Date) (a : ℚ)
    (hd : (if dateText = "" then some today else parse_date dateText) = some d)
    (ha : pyFloat? amountText = some a) :
    add_expense today nowMs dateText title category amountText note (save_data c)
      = (.ok { id := nowMs, date := isoString d, title := title,
               category := if category = "" then "Other" else category,
               amount := a, note := note },
         save_data (c ++ [{ id := nowMs, date := isoString d, title := title,
                            category := if category = "" then "Other" else category,
                            amount := a, note := note }]))
    ∧ (c ++ [{ id := nowMs, date := isoString d, title := title,
               category := if category = "" then "Other" else category,
               amount := a, note := note : ExpenseRecord }]).length = c.length + 1 := by
  constructor
  · unfold add_expense
    rw [hd, ha]
    rfl
  · simp

/-- Witness for C1: a `DD/MM/YYYY`-free concrete run through the third
accepted format `YYYY/MM/DD`, with a blank category and amount `12.5`. -/
theorem add_expense_appends_one_witness :
    ((if ("2024/01/05" : String) = "" then some (⟨2024, 5, 17⟩ : Date)
        else parse_date "2024/01/05") = some ⟨2024, 1, 5⟩)
    ∧ pyFloat? "12.5" = some (mkRat 25 2)
    ∧ add_expense ⟨2024, 5, 17⟩ 1715 "2024/01/05" "Lunch" "" "12.5" "x" (save_data [])
        = (.ok ⟨1715, "2024-01-05", "Lunch", "Other", mkRat 25 2, "x"⟩,
           save_data [⟨1715, "2024-01-05", "Lunch", "Other", mkRat 25 2, "x"⟩]) :=
  ⟨by decide, by with_unfolding_all decide, by
    have h := (add_expense_appends_one ⟨2024, 5, 17⟩ 1715 "2024/01/05" "Lunch" ""
      "12.5" "x" [] ⟨2024, 1, 5⟩ (mkRat 25 2) (by decide)
      (by with_unfolding_all decide)).1
    rw [h]
    rfl⟩

/-- C2: for every collection and integer id, `delete` removes every
record with that id and persists the filtered collection; when no record
has the id it reports not-found and performs no store write (both the
collection and the backing file are unchanged); an id present exactly
once decreases the size by exactly one, an absent id leaves it
unchanged. -/
theorem delete_removes_matching (idNum : Int) (c : Collection) :
    ((∀ r ∈ c, r.id ≠ idNum) →
      delete idNum (save_data c) = (.notFound, save_data c)
      ∧ c.filter (fun r => r.id ≠ idNum) = c)
    ∧ ((∃ r ∈ c, r.id = idNum) →
      delete idNum (save_data c)
        = (.deleted, save_data (c.filter (fun r => r.id ≠ idNum))))
    ∧ ((c.filter (fun r => r.id = idNum)).length = 1 →
      (c.filter (fun r => r.id ≠ idNum)).length + 1 = c.length) := by
  refine ⟨?_, ?_, ?_⟩
  · intro h
    have hfil : c.filter (fun r => r.id ≠ idNum) = c :=
      List.filter_eq_self.mpr (fun a ha => by simpa using h a ha)
    refine ⟨?_, hfil⟩
    show (if ((c.filter (fun r => r.id ≠ idNum)).length = c.length)
        then ((DeleteResult.notFound, save_data c) : DeleteResult × FileState)
        else (.deleted, save_data (c.filter (fun r => r.id ≠ idNum))))
      = (.notFound, save_data c)
    rw [if_pos (by rw [hfil])]
  · rintro ⟨r, hrc, hrid⟩
    have hne : ¬ ((c.filter (fun r => r.id ≠ idNum)).length = c.length) := by
      intro heq
      have := List.filter_length_eq_length.mp heq r hrc
      simp [hrid] at this
    show (if ((c.filter (fun r => r.id ≠ idNum)).length = c.length)
        then ((DeleteResult.notFound, save_data c) : DeleteResult × FileState)
        else (.deleted, save_data (c.filter (fun r => r.id ≠ idNum))))
      = (.deleted, save_data (c.filter (fun r => r.id ≠ idNum)))
    rw [if_neg hne]
  · intro hcount
    have key : ∀ l : Collection,
        (l.filter (fun r => r.id = idNum)).length
          + (l.filter (fun r => r.id ≠ idNum)).length = l.length := by
      intro l
      induction l with
      | nil => rfl
      | cons x t ih =>
        by_cases hx : x.id = idNum
        · have h1 : (decide (x.id = idNum)) = true := decide_eq_true hx
          have h2 : (decide (x.id ≠ idNum)) = false := by
            simp [hx]
          simp only [List.filter_cons, h1, h2, if_true, Bool.false_eq_true, if_false,
            List.length_cons]
          omega
        · have h1 : (decide (x.id = idNum)) = false := decide_eq_false hx
          have h2 : (decide (x.id ≠ idNum)) = true := decide_eq_true hx
          simp only [List.filter_cons, h1, h2, if_true, Bool.false_eq_true, if_false,
            List.length_cons]
          omega
    have := key c
    rw [hcount] at this
    omega

/-- Witness for C2: deleting id 2 from the example collection removes
exactly the one matching record and persists; deleting the absent id 9
reports not-found and writes nothing. -/
theorem delete_removes_matching_witness :
    delete 2 (save_data exRecords)
        = (.deleted, save_data (exRecords.filter (fun r => r.id ≠ 2)))
    ∧ delete 9 (save_data exRecords) = (.notFound, save_data exRecords)
    ∧ (exRecords.filter (fun r => r.id = 2)).length = 1
    ∧ (exRecords.filter (fun r => r.id ≠ 2)).length + 1 = exRecords.length :=
  ⟨(delete_removes_matching 2 exRecords).2.1
      ⟨exRec2, by with_unfolding_all decide, by decide⟩,
   ((delete_removes_matching 9 exRecords).1 (by with_unfolding_all decide)).1,
   by with_unfolding_all decide,
   (delete_removes_matching 2 exRecords).2.2 (by with_unfolding_all decide)⟩

/-- C7: `add_expense` fails with the invalid-date condition exactly when
the non-blank date text matches none of the three accepted formats
(tried in order `YYYY-MM-DD`, `DD-MM-YYYY`, `YYYY/MM/DD`, first match
winning), and fails with the invalid-amount condition when the date is
acceptable but the amount text is not numeric; in both failure cases the
backing file (hence the collection) is untouched and no store write
happens. -/
theorem add_expense_rejects_invalid (today : Date) (nowMs : Int)
    (dateText title category amountText note : String) (f : FileState) :
    ((add_expense today nowMs dateText title category amountText note f).1
        = .invalidDate ↔ (dateText ≠ "" ∧ parse_date dateText = none))
    ∧ (dateText ≠ "" → parse_date dateText = none →
        add_expense today nowMs dateText title category amountText note f
          = (.invalidDate, f))
    ∧ ((dateText = "" ∨ (parse_date dateText).isSome) →
        pyFloat? amountText = none →
        add_expense today nowMs dateText title category amountText note f
          = (.invalidAmount, f))
    ∧ (∀ t, parse_date t = none
        ↔ (strptimeYMD '-' t = none ∧ strptimeDMY t = none
            ∧ strptimeYMD '/' t = none))
    ∧ (∀ t d, strptimeYMD '-' t = some d → parse_date t = some d)
    ∧ (∀ t d, strptimeYMD '-' t = none → strptimeDMY t = some d →
        parse_date t = some d)
    ∧ (∀ t d, strptimeYMD '-' t = none → strptimeDMY t = none →
        strptimeYMD '/' t = some d → parse_date t = some d) := by
  have hinv : ∀ (_ : dateText ≠ "") (_ : parse_date dateText = none),
      add_expense today nowMs dateText title category amountText note f
        = (.invalidDate, f) := by
    intro hne hp
    unfold add_expense
    rw [if_neg hne, hp]
  refine ⟨?_, hinv, ?_, ?_, ?_, ?_, ?_⟩
  · constructor
    · intro hres
      by_cases hb : dateText = ""
      · exfalso
        unfold add_expense at hres
        rw [if_pos hb] at hres
        cases hf : pyFloat? amountText with
        | none => rw [hf] at hres; simp at hres
        | some a => rw [hf] at hres; simp at hres
      · refine ⟨hb, ?_⟩
        cases hp : parse_date dateText with
        | none => rfl
        | some d =>
          exfalso
          unfold add_expense at hres
          rw [if_neg hb, hp] at hres
          cases hf : pyFloat? amountText with
          | none => rw [hf] at hres; simp at hres
          | some a => rw [hf] at hres; simp at hres
    · rintro ⟨hne, hp⟩
      rw [hinv hne hp]
  · intro hd hf
    unfold add_expense
    rcases hd with hb | hs
    · rw [if_pos hb, hf]
    · obtain ⟨d, hd⟩ := Option.isSome_iff_exists.mp hs
      by_cases hb : dateText = ""
      · rw [if_pos hb, hf]
      · rw [if_neg hb, hd, hf]
  · intro t
    unfold parse_date
    cases h1 : strptimeYMD '-' t with
    | some d => simp [Option.orElse, h1]
    | none =>
      cases h2 : strptimeDMY t with
      | some d => simp [Option.orElse, h2]
      | none => simp [Option.orElse]
  · intro t d h1
    unfold parse_date
    rw [h1]
    rfl
  · intro t d h1 h2
    unfold parse_date
    rw [h1, h2]
    rfl
  · intro t d h1 h2 h3
    unfold parse_date
    rw [h1, h2, h3]
    rfl

/-- Witness for C7: the spec's own examples — the unparseable date
`"13/45/9999"` and the non-numeric amount `"abc"` — leave the file
unchanged, and each of the three formats parses a matching sample. -/
theorem add_expense_rejects_invalid_witness :
    parse_date "13/45/9999" = none
    ∧ pyFloat? "abc" = none
    ∧ add_expense ⟨2024, 5, 17⟩ 9 "13/45/9999" "t" "c" "5" "" (save_data [])
        = (.invalidDate, save_data [])
    ∧ add_expense ⟨2024, 5, 17⟩ 9 "2024-01-05" "t" "c" "abc" "" (save_data [])
        = (.invalidAmount, save_data [])
    ∧ parse_date "05-01-2024" = strptimeDMY "05-01-2024" :=
  ⟨by decide, by decide,
   (add_expense_rejects_invalid ⟨2024, 5, 17⟩ 9 "13/45/9999" "t" "c" "5" ""
       (save_data [])).2.1 (by decide) (by decide),
   (add_expense_rejects_invalid ⟨2024, 5, 17⟩ 9 "2024-01-05" "t" "c" "abc" ""
       (save_data [])).2.2.1 (.inr (by decide)) (by decide),
   by
    have h := (add_expense_rejects_invalid ⟨2024, 5, 17⟩ 9 "" "" "" "" ""
       (save_data [])).2.2.2.2.2.1 "05-01-2024" ⟨2024, 1, 5⟩ (by decide) (by decide)
    rw [h]
    decide⟩

/-- C8 (corrected): a collection containing a record whose stored date
is rejected by `datetime.fromisoformat` makes `monthly_summary`'s core
abort with the uncaught error, whatever year and month were requested —
this path parses every stored date strictly, while `load_data` performs
no validation at all.  The original claim's failure condition, "not a
valid ISO calendar-date string", is too wide: `fromisoformat` also
accepts ISO date-time strings such as `"2024-01-05 10:00:00"`, basic
formats such as `"20240105"`, and ISO week dates, none of which are
calendar-date strings, and the summary succeeds on them (see the
counterexample). -/
theorem monthly_core_date_strict (year month : Int) (data : Collection)
    (h : ∃ r ∈ data, fromisoformat? r.date = none) :
    monthly_core year month data = .error .isoParse
    ∧ ∀ c : Collection, load_data (save_data c) = c := by
  refine ⟨?_, fun _ => rfl⟩
  unfold monthly_core
  have hany : data.any (fun r => (fromisoformat? r.date).isNone) = true := by
    rw [List.any_eq_true]
    obtain ⟨r, hr, hn⟩ := h
    exact ⟨r, hr, by simp [hn]⟩
  rw [if_pos hany]

/-- Witness for C8: a record dated `"2024-13-01"` (month 13) aborts the
summary for an arbitrary request. -/
theorem monthly_core_date_strict_witness :
    fromisoformat? "2024-13-01" = none
    ∧ monthly_core 2025 6 [⟨7, "2024-13-01", "t", "Misc", 3, ""⟩]
        = .error .isoParse :=
  ⟨by decide,
   (monthly_core_date_strict 2025 6 [⟨7, "2024-13-01", "t", "Misc", 3, ""⟩]
     ⟨⟨7, "2024-13-01", "t", "Misc", 3, ""⟩, List.mem_cons_self _ _,
      by decide⟩).1⟩

set_option maxRecDepth 8000 in
/-- Counterexample for C8 as originally stated: the date field
`"2024-01-05 10:00:00"` is not a valid ISO calendar-date string, yet
`datetime.fromisoformat` accepts it (as the date 2024-01-05 with a time
part), so the summary on a collection holding such a record reports
normally instead of failing. -/
theorem monthly_core_date_strict_counterexample :
    isoCalendarDate? "2024-01-05 10:00:00" = none
    ∧ fromisoformat? "2024-01-05 10:00:00" = some ⟨2024, 1, 5⟩
    ∧ monthly_core 2024 1 [⟨1, "2024-01-05 10:00:00", "t", "Food", 4, ""⟩]
        = .ok ⟨2024, 1, 4, [("Food", 4, 100)]⟩ := by
  refine ⟨by decide, by decide, ?_⟩
  with_unfolding_all decide

/-- C9: the percentage computation of `monthly_summary` can divide by
zero: a collection whose filtered month is non-empty but sums to exactly
zero reaches the unguarded `amt/total*100`, and the error branch is
reachable. -/
theorem monthly_core_zero_division_reachable :
    ∃ data : Collection,
      monthFilter 2024 1 data ≠ []
      ∧ totalAmount (monthFilter 2024 1 data) = 0
      ∧ monthly_core 2024 1 data = .error .zeroDiv :=
  ⟨[⟨1, "2024-01-09", "a", "Food", 0, ""⟩], by with_unfolding_all decide⟩

/-- C10: a non-blank year or month text that `int(...)` rejects makes
`monthly_summary` fail with the uncaught interpreter error before the
collection is read or filtered — there is no InvalidYear/InvalidMonth
validation outcome — and the backing file is unchanged. -/
theorem monthly_summary_int_uncaught (yText mText : String) (today : Date)
    (f : FileState)
    (h : (yText ≠ "" ∧ pyInt? yText = none) ∨ (mText ≠ "" ∧ pyInt? mText = none)) :
    monthly_summary yText mText today f = (.error .intParse, f) := by
  unfold monthly_summary
  rcases h with ⟨hne, hy⟩ | ⟨hne, hm⟩
  · rw [if_neg hne, hy]
  · rw [if_neg hne, hm]
    cases (if yText = "" then some (today.year : Int) else pyInt? yText) <;> rfl

/-- Witness for C10: year text `"20x4"` propagates the error for any
file contents, including ones `load_data` would accept. -/
theorem monthly_summary_int_uncaught_witness :
    ("20x4" : String) ≠ "" ∧ pyInt? "20x4" = none
    ∧ monthly_summary "20x4" "1" ⟨2024, 5, 17⟩ (save_data exRecords)
        = (.error .intParse, save_data exRecords) :=
  ⟨by decide, by decide,
   monthly_summary_int_uncaught "20x4" "1" ⟨2024, 5, 17⟩ (save_data exRecords)
     (.inl ⟨by decide, by decide⟩)⟩

set_option maxRecDepth 8000 in
/-- C3 (amended): for a collection of valid ISO dates whose records in
the requested month are non-empty with a nonzero total, `monthly_summary`
restricts to that month, reports the total of the restricted records and
the per-category subtotals — category to sum of amount, in first-seen
category order, each with its percentage of the total; on the spec's
three-record example, `monthly_summary(2024,1)` reports total 30.0 and
`Food: 30.0 (100.0%)`.  (The unamended claim fails when the restricted
month sums to zero: the operation then aborts, see the counterexample.) -/
theorem monthly_core_reports_summary (year month : Int) (data : Collection)
    (hvalid : ∀ r ∈ data, (fromisoformat? r.date).isSome)
    (hne : monthFilter year month data ≠ [])
    (hz : totalAmount (monthFilter year month data) ≠ 0) :
    monthly_core year month data
      = .ok { year := year, month := month,
              total := totalAmount (monthFilter year month data),
              lines := (specByCat (monthFilter year month data)).map
                (fun p =>
                  (p.1, p.2, p.2 / totalAmount (monthFilter year month data) * 100)) }
    ∧ monthly_core 2024 1 exRecords
      = .ok { year := 2024, month := 1, total := 30, lines := [("Food", 30, 100)] } := by
  constructor
  · unfold monthly_core
    have hany : ¬ (data.any (fun r => (fromisoformat? r.date).isNone) = true) := by
      rw [List.any_eq_true]
      rintro ⟨r, hr, hn⟩
      have h := hvalid r hr
      cases hfe : fromisoformat? r.date with
      | none => rw [hfe] at h; simp at h
      | some d => rw [hfe] at hn; simp at hn
    have hempty : ¬ ((monthFilter year month data).isEmpty = true) := by
      simp only [List.isEmpty_iff]
      exact hne
    rw [if_neg hany, if_neg hempty, if_neg hz, by_cat_fold_eq_specByCat]
  · with_unfolding_all decide

set_option maxRecDepth 8000 in
/-- Witness for C3 at a one-record January collection. -/
theorem monthly_core_reports_summary_witness :
    monthly_core 2024 1 [⟨1, "2024-01-09", "a", "Food", 7, ""⟩]
      = .ok { year := 2024, month := 1, total := 7, lines := [("Food", 7, 100)] } := by
  have h := (monthly_core_reports_summary 2024 1
      [⟨1, "2024-01-09", "a", "Food", 7, ""⟩]
      (by decide) (by decide) (by with_unfolding_all decide)).1
  rw [h]
  with_unfolding_all decide

/-- C3 counterexample: a January record with amount 0 has a valid ISO
date and a non-empty restriction to 2024-01, yet `monthly_summary`
reports nothing — it aborts in the division by zero — so the claim as
stated (that the total and subtotals are always reported) fails. -/
theorem monthly_core_reports_summary_counterexample :
    ([⟨1, "2024-01-22", "x", "Food", 0, ""⟩] : Collection).all
        (fun r => (fromisoformat? r.date).isSome) = true
    ∧ monthFilter 2024 1 [⟨1, "2024-01-22", "x", "Food", 0, ""⟩]
        = [⟨1, "2024-01-22", "x", "Food", 0, ""⟩]
    ∧ monthly_core 2024 1 [⟨1, "2024-01-22", "x", "Food", 0, ""⟩]
        = .error .zeroDiv := by
  with_unfolding_all decide

/-- C4: for every non-empty collection `view_all` lists the records
sorted by the date string in descending lexicographic order, ties kept
in original relative order (a stable sort), reports as total the sum of
all amount fields, and performs no mutation; on the spec's three example
records the order is id 3, id 2, id 1 with total 35.0. -/
theorem view_all_sorted_descending :
    (∀ c : Collection, c ≠ [] →
      view_all (save_data c)
        = (.listing (sortByDateDesc c) (totalAmount (sortByDateDesc c)), save_data c)
      ∧ List.Perm (sortByDateDesc c) c
      ∧ (sortByDateDesc c).Pairwise (fun p q => pyStrLe q.date p.date = true)
      ∧ (∀ d, (sortByDateDesc c).filter (fun r => r.date = d)
            = c.filter (fun r => r.date = d))
      ∧ totalAmount (sortByDateDesc c) = totalAmount c)
    ∧ view_all (save_data exRecords)
        = (.listing [exRec3, exRec2, exRec1] 35, save_data exRecords) := by
  constructor
  · intro c hc
    refine ⟨?_, sortByDateDesc_perm c, sortByDateDesc_pairwise c,
      sortByDateDesc_stable c, sortByDateDesc_total c⟩
    unfold view_all
    have hni : ¬ ((load_data (save_data c)).isEmpty = true) := by
      simp only [List.isEmpty_iff]
      exact hc
    rw [if_neg hni]
    rfl
  · with_unfolding_all decide

/-- Witness for C4 at a one-record collection. -/
theorem view_all_sorted_descending_witness :
    view_all (save_data [⟨5, "2024-03-02", "a", "Misc", 2, ""⟩])
      = (.listing (sortByDateDesc [⟨5, "2024-03-02", "a", "Misc", 2, ""⟩])
          (totalAmount (sortByDateDesc [⟨5, "2024-03-02", "a", "Misc", 2, ""⟩])),
         save_data [⟨5, "2024-03-02", "a", "Misc", 2, ""⟩]) :=
  (view_all_sorted_descending.1 [⟨5, "2024-03-02", "a", "Misc", 2, ""⟩]
    (by decide)).1

end ExpenseTracker
